import Mathlib

/-!
# Verification of the Victoriae rendering-client core

Shallow embedding, in Lean 4, of the parts of the Victoriae web client that
the specification talks about:

* the camera-transform helpers of `src/apps/web-client/src/main/input.ts`
  (`screenToWorld`, `clampCameraToBounds`);
* the layer compositor of `src/apps/web-client/src/worker/viewManager.ts`
  (`ViewManager.add`, `isPointInViewport`, `interceptInput`);
* the GPU-buffer lifecycle managers of
  `src/apps/web-client/src/worker/managers/MapManager.ts`
  (`MapManager.updateMapData`, `EntityManager.updateUnitData`,
  `EntityManager.updateInterpolation`, `EntityManager.update`);
* the `UPDATE_MAP` message handler of
  `src/apps/web-client/src/worker/render.worker.ts`.

Numbers are modelled as exact rationals (`ℚ`); JavaScript `Map` objects as
association lists in insertion order; typed arrays as `List ℚ` / `List ℕ`
(with `List.set` silently ignoring out-of-range writes, matching typed-array
semantics); GPU buffers as an `Option ℕ` recording the byte size of the live
buffer; the wall clock (`performance.now() / 1000`) as an explicit `now : ℚ`
parameter.
-/

namespace Victoriae



/-! ## Camera transform (`src/apps/web-client/src/main/input.ts`) -/

/-- `screenToWorld` from `input.ts`: normalize the screen pixel to NDC,
flip the vertical axis, scale by the zoom-derived visible world size and
offset by the camera position. -/
def screenToWorld (screenX screenY camX camY zoom screenW screenH : ℚ) :
    ℚ × ℚ :=
  let ndcRawX := (screenX / screenW) * 2 - 1
  let ndcRawY := (screenY / screenH) * 2 - 1
  let ndcX := ndcRawX
  let ndcY := -ndcRawY
  let aspectRatio := screenW / screenH
  let worldSizeY := 2 / zoom
  let worldSizeX := worldSizeY * aspectRatio
  let worldX := ndcX * (worldSizeX * (1/2)) + camX
  let worldY := ndcY * (worldSizeY * (1/2)) + camY
  (worldX, worldY)

/-- `clampCameraToBounds` from `input.ts`: clamp the camera position so the
visible viewport stays within `[0, mapSize]`; when the *half* viewport extent
reaches `mapSize` on an axis, centre on that axis instead. -/
def clampCameraToBounds (camX camY zoom screenW screenH mapSize : ℚ) :
    ℚ × ℚ :=
  let aspectRatio := screenW / screenH
  let worldSizeY := 2 / zoom
  let worldSizeX := worldSizeY * aspectRatio
  let halfWorldSizeX := worldSizeX * (1/2)
  let halfWorldSizeY := worldSizeY * (1/2)
  let clampedX :=
    if halfWorldSizeX ≥ mapSize then mapSize * (1/2)
    else max halfWorldSizeX (min (mapSize - halfWorldSizeX) camX)
  let clampedY :=
    if halfWorldSizeY ≥ mapSize then mapSize * (1/2)
    else max halfWorldSizeY (min (mapSize - halfWorldSizeY) camY)
  (clampedX, clampedY)

/-- The horizontal half extent of the visible viewport, as `input.ts`
computes it. -/
def halfWorldSizeX (zoom screenW screenH : ℚ) : ℚ :=
  (2 / zoom * (screenW / screenH)) * (1/2)

/-- The vertical half extent of the visible viewport, as `input.ts`
computes it. -/
def halfWorldSizeY (zoom : ℚ) : ℚ :=
  (2 / zoom) * (1/2)

/-! ## Layer compositor (`src/apps/web-client/src/worker/viewManager.ts`,
types from `src/apps/web-client/src/worker/types.ts`,
offsets from `src/apps/web-client/src/shared/constants.ts`) -/

/-- `Viewport` from `types.ts`: pixel rectangle relative to the canvas. -/
structure Viewport where
  x : ℚ
  y : ℚ
  width : ℚ
  height : ℚ
deriving DecidableEq, Repr

/-- The state of a `VictoriaeLayer` that the compositor inspects:
its id, visibility flag and optional viewport. -/
structure VictoriaeLayer where
  layerId : ℕ
  visible : Bool
  viewport : Option Viewport
deriving DecidableEq, Repr

def SAB_OFFSETS_MOUSE_WORLD_X : ℕ := 3

def SAB_OFFSETS_MOUSE_WORLD_Y : ℕ := 4

def SAB_OFFSETS_IS_MOUSE_DOWN : ℕ := 7

def SAB_OFFSETS_CAPTURED_LAYER_ID : ℕ := 8

/-- `ViewManager` state: layer list in render order, whether `init` has been
called (the `gpuContext` field), and the next id to assign. -/
structure ViewManager where
  layers : List VictoriaeLayer
  gpuContext : Bool
  nextLayerId : ℕ
deriving DecidableEq, Repr

/-- A freshly constructed `ViewManager` (fields as initialized in the class). -/
def ViewManager.empty : ViewManager := ⟨[], false, 0⟩

/-- `ViewManager.init`: store the GPU context. -/
def ViewManager.init (vm : ViewManager) : ViewManager :=
  { vm with gpuContext := true }

/-- `ViewManager.add`: throws when not initialized; otherwise assigns the next
sequential id and appends the layer to the end of the render order. -/
def ViewManager.add (vm : ViewManager) (layer : VictoriaeLayer) :
    Except String ViewManager :=
  if !vm.gpuContext then
    .error "ViewManager not initialized. Call init() first."
  else
    .ok { vm with
      layers := vm.layers ++ [{ layer with layerId := vm.nextLayerId }],
      nextLayerId := vm.nextLayerId + 1 }

/-- `ViewManager.getVisibleLayers`: the visible layers in render order. -/
def ViewManager.getVisibleLayers (vm : ViewManager) : List VictoriaeLayer :=
  vm.layers.filter (·.visible)

/-- `ViewManager.isPointInViewport`: a `null` viewport contains every point;
otherwise containment is half-open on the right and bottom edges. -/
def isPointInViewport (x y : ℚ) (viewport : Option Viewport) : Bool :=
  match viewport with
  | none => true
  | some v =>
      decide (x ≥ v.x) && decide (x < v.x + v.width) &&
      decide (y ≥ v.y) && decide (y < v.y + v.height)

/-- The scan loop of `interceptInput`: `for (i = len-1; i >= 0; i--)`, testing
the pointer against layer i's viewport and breaking on the first hit,
expressed as recursion on the running index bound. -/
def scanTopDown (mx my : ℚ) (layers : List VictoriaeLayer) : ℕ → Int
  | 0 => -1
  | i + 1 =>
    match layers.get? i with
    | some layer =>
        if isPointInViewport mx my layer.viewport then (layer.layerId : Int)
        else scanTopDown mx my layers i
    | none => scanTopDown mx my layers i

/-- `ViewManager.interceptInput`: read the button flag and pointer position
from the shared view; with the button up write the sentinel `-1` into the
captured-layer slot, otherwise write the id found by the top-down scan over
the visible layers. -/
def ViewManager.interceptInput (vm : ViewManager) (sabView : List ℚ) :
    List ℚ :=
  let isMouseDown := decide (sabView.getD SAB_OFFSETS_IS_MOUSE_DOWN 0 > 1/2)
  let mouseX := sabView.getD SAB_OFFSETS_MOUSE_WORLD_X 0
  let mouseY := sabView.getD SAB_OFFSETS_MOUSE_WORLD_Y 0
  if !isMouseDown then
    sabView.set SAB_OFFSETS_CAPTURED_LAYER_ID (-1)
  else
    let visibleLayers := vm.getVisibleLayers
    let capturedLayerId := scanTopDown mouseX mouseY visibleLayers visibleLayers.length
    sabView.set SAB_OFFSETS_CAPTURED_LAYER_ID (capturedLayerId : ℚ)

/-- Stated from the spec's words, for comparison with the code's scan loop:
the id of the topmost (descending render order) visible layer whose viewport
contains the pointer, `-1` if none. -/
def topmostCapture (mx my : ℚ) (layers : List VictoriaeLayer) : Int :=
  match layers.reverse.find? (fun layer => isPointInViewport mx my layer.viewport) with
  | some layer => (layer.layerId : Int)
  | none => -1

/-- The two example layers the specification exercises: `A` with a null
viewport and `B` with viewport `{10, 10, 50, 50}`, added in that order. -/
def vmC3 : ViewManager :=
  ((ViewManager.empty.init.add ⟨0, true, none⟩).bind
    (fun vm => vm.add ⟨0, true, some ⟨10, 10, 50, 50⟩⟩)).toOption.getD
      ViewManager.empty

/-- A shared-state view with pointer `(px, py)` and button flag `down`. -/
def sabC3 (px py down : ℚ) : List ℚ :=
  [0, 0, 0, px, py, 0, 0, down, 0, 0, 0]

/-! ## MapManager (`src/apps/web-client/src/worker/managers/MapManager.ts`)
and the `UPDATE_MAP` message handler
(`src/apps/web-client/src/worker/render.worker.ts`) -/

/-- `MapManager` state: GPU device flag, byte size of the live storage
buffer (if any), stored map size and stored tile data. -/
structure MapManager where
  device : Bool
  tilemapStorageBuffer : Option ℕ
  currentMapSize : ℕ
  currentTileData : Option (List ℕ)
deriving DecidableEq, Repr

/-- A freshly constructed `MapManager` (fields as initialized in the class). -/
def MapManager.empty : MapManager := ⟨false, none, 0, none⟩

/-- `MapManager.init`: store the GPU device. -/
def MapManager.init (m : MapManager) : MapManager := { m with device := true }

/-- `MapManager.updateMapData(tileData, mapSize)`. Note the source stores
`currentTileData`/`currentMapSize` *before* computing `needsNewBuffer`, so
the `this.currentMapSize !== mapSize` comparison reads the just-stored value
(a `Uint32Array` has `byteLength = 4 * length`). -/
def MapManager.updateMapData (m : MapManager) (tileData : List ℕ)
    (mapSize : ℕ) : MapManager :=
  if !m.device then m
  else
    let tileCount := mapSize * mapSize
    if tileData.length ≠ tileCount then m
    else
      let m₁ := { m with
        currentTileData := some tileData, currentMapSize := mapSize }
      let bufferSize := tileData.length * 4
      let needsNewBuffer :=
        m₁.tilemapStorageBuffer.isNone || decide (m₁.currentMapSize ≠ mapSize)
      if needsNewBuffer then { m₁ with tilemapStorageBuffer := some bufferSize }
      else m₁

/-- `MapManager.getMapSize`. -/
def MapManager.getMapSize (m : MapManager) : ℕ := m.currentMapSize

/-- `MapManager.getStorageBuffer` (here: the byte size of the buffer). -/
def MapManager.getStorageBuffer (m : MapManager) : Option ℕ :=
  m.tilemapStorageBuffer

/-- The `UPDATE_MAP` branch of `self.onmessage` in `render.worker.ts`:
derive `mapSize = sqrt(length)`, reject when the length is not a perfect
square, otherwise forward to `MapManager.updateMapData`. -/
def onUpdateMap (m : MapManager) (data : List ℕ) : MapManager :=
  let mapSize := data.length.sqrt
  if mapSize * mapSize ≠ data.length then m
  else m.updateMapData data mapSize

/-! ## EntityManager (`src/apps/web-client/src/worker/managers/MapManager.ts`,
second class in the file) -/

/-- `UnitInterpolationState` from the source. -/
structure UnitInterpolationState where
  startX : ℚ
  startY : ℚ
  targetX : ℚ
  targetY : ℚ
  startTime : ℚ
deriving DecidableEq, Repr

/-- A JavaScript `Map<number, UnitInterpolationState>`, kept in insertion
order as an association list. -/
abbrev InterpMap := List (ℕ × UnitInterpolationState)

/-- `Map.set`: replace in place when the key exists, append otherwise. -/
def mapSet (m : InterpMap) (k : ℕ) (v : UnitInterpolationState) : InterpMap :=
  if m.any (fun p => p.1 == k) then
    m.map (fun p => if p.1 = k then (k, v) else p)
  else m ++ [(k, v)]

/-- `Map.delete`. -/
def mapDelete (m : InterpMap) (k : ℕ) : InterpMap :=
  m.filter (fun p => p.1 != k)

/-- `Map.get`. -/
def mapGet (m : InterpMap) (k : ℕ) : Option UnitInterpolationState :=
  (m.find? (fun p => p.1 == k)).map Prod.snd

/-- `MOVE_DURATION = 0.3` seconds. -/
def MOVE_DURATION : ℚ := 3/10

/-- `EntityManager` state: GPU device flag, byte size of the live storage
buffer, stored unit count and table, buffer version, interpolation map and
last interpolated snapshot. -/
structure EntityManager where
  device : Bool
  unitStorageBuffer : Option ℕ
  currentUnitCount : ℕ
  currentUnitData : Option (List ℚ)
  bufferVersion : ℕ
  interpolationStates : InterpMap
  interpolatedData : Option (List ℚ)
deriving DecidableEq, Repr

/-- A freshly constructed `EntityManager`. -/
def EntityManager.empty : EntityManager := ⟨false, none, 0, none, 0, [], none⟩

/-- `EntityManager.init`: store the GPU device. -/
def EntityManager.init (m : EntityManager) : EntityManager :=
  { m with device := true }

/-- The per-slot progress at time `now`:
`Math.min(1.0, elapsed / MOVE_DURATION)`. -/
def interpProgress (st : UnitInterpolationState) (now : ℚ) : ℚ :=
  min 1 ((now - st.startTime) / MOVE_DURATION)

/-- One iteration of the `updateInterpolation` loop: lerp the entry's
position into the snapshot being built (typeId/stateBits re-read from the
committed table), and delete the entry once progress reaches 1. -/
def interpStep (committed : List ℚ) (now : ℚ)
    (acc : List ℚ × InterpMap) (e : ℕ × UnitInterpolationState) :
    List ℚ × InterpMap :=
  let unitIndex := e.1
  let state := e.2
  let progress := interpProgress state now
  let x := state.startX + (state.targetX - state.startX) * progress
  let y := state.startY + (state.targetY - state.startY) * progress
  let offset := unitIndex * 4
  let interpolated :=
    ((((acc.1.set offset x).set (offset + 1) y).set (offset + 2)
        (committed.getD (offset + 2) 0)).set (offset + 3)
        (committed.getD (offset + 3) 0))
  let states := if 1 ≤ progress then mapDelete acc.2 unitIndex else acc.2
  (interpolated, states)

/-- `EntityManager.updateInterpolation`, with the clock passed explicitly. -/
def EntityManager.updateInterpolation (m : EntityManager) (now : ℚ) :
    EntityManager :=
  match m.currentUnitData with
  | none => { m with interpolatedData := none }
  | some data =>
      if m.interpolationStates.isEmpty then { m with interpolatedData := none }
      else
        let r := m.interpolationStates.foldl (interpStep data now)
          (data, m.interpolationStates)
        { m with interpolatedData := some r.1, interpolationStates := r.2 }

/-- `EntityManager.update`: readiness guard, then advance interpolation and
write the snapshot (or the raw table) to the GPU buffer. -/
def EntityManager.update (m : EntityManager) (now : ℚ) : EntityManager :=
  if m.device = false ∨ m.unitStorageBuffer = none ∨ m.currentUnitData = none
  then m
  else m.updateInterpolation now

/-- One iteration of the position-change detection loop of `updateUnitData`:
compare the currently displayed position of slot `i` with the new target;
re-anchor an interpolation starting from the displayed position on change,
drop any existing state otherwise. -/
def detectStep (currentVisualData unitData : List ℚ) (now : ℚ)
    (st : InterpMap) (i : ℕ) : InterpMap :=
  let offset := i * 4
  let oldX := currentVisualData.getD offset 0
  let oldY := currentVisualData.getD (offset + 1) 0
  let newX := unitData.getD offset 0
  let newY := unitData.getD (offset + 1) 0
  if oldX ≠ newX ∨ oldY ≠ newY then
    mapSet st i ⟨oldX, oldY, newX, newY, now⟩
  else
    mapDelete st i

/-- `EntityManager.updateUnitData(unitData, unitCount)` at time `now`
(a `Float32Array` has `byteLength = 4 * length`). -/
def EntityManager.updateUnitData (m : EntityManager) (unitData : List ℚ)
    (unitCount : ℕ) (now : ℚ) : EntityManager :=
  if !m.device then m
  else if unitData.length ≠ unitCount * 4 then m
  else
    let bufferSize := unitData.length * 4
    let needsNewBuffer :=
      m.unitStorageBuffer.isNone || decide (m.currentUnitCount ≠ unitCount)
    let states :=
      match m.currentUnitData with
      | some cur =>
          if m.currentUnitCount = unitCount then
            let currentVisualData := m.interpolatedData.getD cur
            (List.range unitCount).foldl
              (detectStep currentVisualData unitData now) m.interpolationStates
          else m.interpolationStates
      | none => m.interpolationStates
    let m₁ := { m with
      currentUnitData := some unitData,
      currentUnitCount := unitCount,
      interpolationStates := states }
    let m₂ :=
      if needsNewBuffer then
        { m₁ with unitStorageBuffer := some bufferSize,
                  bufferVersion := m₁.bufferVersion + 1 }
      else m₁
    if m₂.interpolationStates.isEmpty then m₂
    else m₂.updateInterpolation now

/-- `EntityManager.getBufferVersion`. -/
def EntityManager.getBufferVersion (m : EntityManager) : ℕ := m.bufferVersion

/-- `EntityManager.getUnitCount`. -/
def EntityManager.getUnitCount (m : EntityManager) : ℕ := m.currentUnitCount

/-- The operations the worker performs on the `EntityManager` over time:
`UPDATE_UNITS` messages and per-frame `update` calls. -/
inductive EMOp where
  | updateUnits (unitData : List ℚ) (unitCount : ℕ) (now : ℚ)
  | frame (now : ℚ)

/-- Apply one operation to the manager. -/
def EMstep (m : EntityManager) (op : EMOp) : EntityManager :=
  match op with
  | .updateUnits d c n => m.updateUnitData d c n
  | .frame n => m.update n

/-- A concrete manager holding one committed unit at `(0, 0)` with no
interpolation in flight. -/
def mC2 : EntityManager :=
  ⟨true, some 16, 1, some [0, 0, 5, 7], 1, [], none⟩

/-- A concrete manager with one unit mid-interpolation from `(0,0)` towards
`(2,0)`, anchored at time 0. -/
def mC6 : EntityManager :=
  ⟨true, some 16, 1, some [0, 0, 5, 7], 1, [(0, ⟨0, 0, 2, 0, 0⟩)], none⟩

theorem clampCameraToBounds_eq (camX camY zoom screenW screenH mapSize : ℚ) :
    clampCameraToBounds camX camY zoom screenW screenH mapSize =
      ((if halfWorldSizeX zoom screenW screenH ≥ mapSize then mapSize * (1/2)
        else max (halfWorldSizeX zoom screenW screenH)
          (min (mapSize - halfWorldSizeX zoom screenW screenH) camX)),
       (if halfWorldSizeY zoom ≥ mapSize then mapSize * (1/2)
        else max (halfWorldSizeY zoom)
          (min (mapSize - halfWorldSizeY zoom) camY))) := rfl

/-- One axis of the clamp is idempotent, whatever branch is taken. -/
theorem clampAxis_idem (half mapSize c : ℚ) :
    (if half ≥ mapSize then mapSize * (1/2)
      else max half (min (mapSize - half)
        (if half ≥ mapSize then mapSize * (1/2)
          else max half (min (mapSize - half) c)))) =
    (if half ≥ mapSize then mapSize * (1/2)
      else max half (min (mapSize - half) c)) := by
  rcases le_or_lt mapSize half with h | h
  · simp [h]
  · have hnot : ¬ half ≥ mapSize := not_le.mpr h
    simp only [if_neg hnot]
    rcases le_or_lt half (mapSize - half) with hle | hlt
    · -- the clamped value lies in `[half, mapSize - half]`, so reclamping fixes it
      set v := max half (min (mapSize - half) c) with hv
      have h1 : half ≤ v := le_max_left _ _
      have h2 : v ≤ mapSize - half := by
        have : min (mapSize - half) c ≤ mapSize - half := min_le_left _ _
        exact max_le hle this
      have : min (mapSize - half) v = v := min_eq_right h2
      rw [this, max_eq_right h1]
    · -- degenerate band: the clamp always returns `half`
      have h1 : min (mapSize - half) c ≤ half := le_of_lt (lt_of_le_of_lt (min_le_left _ _) hlt)
      have houter : max half (min (mapSize - half) c) = half := max_eq_left h1
      rw [houter]
      have h2 : min (mapSize - half) half ≤ half := min_le_right _ _
      exact max_eq_left h2

/-- C8, evaluated at the failing input. With `mapSize = 10` and a zoom of
`1/6` on a square screen, the half viewport extent is `6`: the visible
viewport (width 12) is strictly larger than the map, yet the code returns
`(6, 6)` rather than the map centre `(5, 5)`, leaving the viewport
`[0, 12] ⊄ [0, 10]`. The claim (and the code's own comment
"Center if viewport is larger than map") demand the centre here. -/
theorem clampCameraToBounds_not_centered_when_viewport_exceeds_map :
    clampCameraToBounds 0 0 (1/6) 100 100 10 = (6, 6) ∧
    (2 * halfWorldSizeX (1/6) 100 100 > 10) ∧
    ((6 : ℚ), (6 : ℚ)) ≠ ((10 : ℚ) * (1/2), (10 : ℚ) * (1/2)) ∧
    ¬ ((6 : ℚ) + 6 ≤ 10) := by
  refine ⟨?_, by norm_num [halfWorldSizeX], by norm_num, by norm_num⟩
  norm_num [clampCameraToBounds]

/-- C9: `clampCameraToBounds` is a fixed point on already-in-bounds cameras
(viewport inside `[0, mapSize]` on both axes), and applying it twice always
equals applying it once. -/
theorem clampCameraToBounds_fixed_and_idem
    (camX camY zoom screenW screenH mapSize : ℚ)
    (hzoom : 0 < zoom) (hw : 0 < screenW) (hh : 0 < screenH)
    (hx0 : 0 ≤ camX - halfWorldSizeX zoom screenW screenH)
    (hx1 : camX + halfWorldSizeX zoom screenW screenH ≤ mapSize)
    (hy0 : 0 ≤ camY - halfWorldSizeY zoom)
    (hy1 : camY + halfWorldSizeY zoom ≤ mapSize) :
    clampCameraToBounds camX camY zoom screenW screenH mapSize =
      (camX, camY) ∧
    ∀ cx cy z sw sh ms : ℚ,
      clampCameraToBounds
        (clampCameraToBounds cx cy z sw sh ms).1
        (clampCameraToBounds cx cy z sw sh ms).2 z sw sh ms =
      clampCameraToBounds cx cy z sw sh ms := by
  constructor
  · -- fixed point on in-bounds input
    have hax : 0 < halfWorldSizeX zoom screenW screenH := by
      have h1 : (0 : ℚ) < 2 / zoom := by positivity
      have h2 : (0 : ℚ) < screenW / screenH := by positivity
      unfold halfWorldSizeX
      positivity
    have hay : 0 < halfWorldSizeY zoom := by
      unfold halfWorldSizeY
      positivity
    set hX := halfWorldSizeX zoom screenW screenH with hXdef
    set hY := halfWorldSizeY zoom with hYdef
    have hXlt : ¬ hX ≥ mapSize := by
      push_neg
      nlinarith
    have hYlt : ¬ hY ≥ mapSize := by
      push_neg
      nlinarith
    rw [clampCameraToBounds_eq, ← hXdef, ← hYdef, if_neg hXlt, if_neg hYlt]
    have hxmin : min (mapSize - hX) camX = camX := min_eq_right (by linarith)
    have hymin : min (mapSize - hY) camY = camY := min_eq_right (by linarith)
    rw [hxmin, hymin, max_eq_right (by linarith), max_eq_right (by linarith)]
  · -- unconditional idempotence
    intro cx cy z sw sh ms
    rw [clampCameraToBounds_eq, clampCameraToBounds_eq]
    dsimp only
    simp only [Prod.mk.injEq]
    exact ⟨clampAxis_idem _ _ _, clampAxis_idem _ _ _⟩

/-- Witness for C9 at a concrete in-bounds camera: map size 64, zoom 1,
square 800×800 screen, camera at the centre. -/
theorem clampCameraToBounds_fixed_and_idem_witness :
    clampCameraToBounds 32 32 1 800 800 64 = (32, 32) := by
  have h := clampCameraToBounds_fixed_and_idem 32 32 1 800 800 64
    (by norm_num) (by norm_num) (by norm_num)
    (by norm_num [halfWorldSizeX]) (by norm_num [halfWorldSizeX])
    (by norm_num [halfWorldSizeY]) (by norm_num [halfWorldSizeY])
  exact h.1

theorem isPointInViewport_none (x y : ℚ) : isPointInViewport x y none = true :=
  rfl

theorem isPointInViewport_some_iff (x y vx vy w h : ℚ) :
    isPointInViewport x y (some ⟨vx, vy, w, h⟩) = true ↔
      vx ≤ x ∧ x < vx + w ∧ vy ≤ y ∧ y < vy + h := by
  simp [isPointInViewport, and_assoc]

theorem scanTopDown_eq_take (mx my : ℚ) (layers : List VictoriaeLayer) :
    ∀ i, i ≤ layers.length →
      scanTopDown mx my layers i = topmostCapture mx my (layers.take i) := by
  intro i
  induction i with
  | zero => intro _; simp [scanTopDown, topmostCapture]
  | succ j ih =>
      intro h
      have hj : j < layers.length := h
      obtain ⟨a, ha⟩ : ∃ a, layers.get? j = some a :=
        ⟨layers.get ⟨j, hj⟩, List.get?_eq_get hj⟩
      have ha' : layers[j]? = some a := by
        rw [← List.get?_eq_getElem?]; exact ha
      have htake : (layers.take (j + 1)).reverse = a :: (layers.take j).reverse := by
        rw [List.take_succ, ha']
        simp
      simp only [scanTopDown, ha, topmostCapture, htake, List.find?]
      by_cases hhit : isPointInViewport mx my a.viewport
      · simp [hhit]
      · simp only [Bool.not_eq_true] at hhit
        simp only [hhit, if_neg]
        rw [ih (le_of_lt hj)]
        simp [topmostCapture, hhit]

theorem scanTopDown_length (mx my : ℚ) (layers : List VictoriaeLayer) :
    scanTopDown mx my layers layers.length = topmostCapture mx my layers := by
  simpa using scanTopDown_eq_take mx my layers layers.length le_rfl

theorem getD_set_self {α : Type _} (l : List α) (i : ℕ) (v d : α)
    (h : i < l.length) : (l.set i v).getD i d = v := by
  induction l generalizing i with
  | nil => simp at h
  | cons a t ih =>
      cases i with
      | zero => simp
      | succ j =>
          have hj : j < t.length := by simpa using h
          simpa using ih j hj

theorem interceptInput_up (vm : ViewManager) (sabView : List ℚ)
    (hlen : SAB_OFFSETS_CAPTURED_LAYER_ID < sabView.length)
    (hle : sabView.getD SAB_OFFSETS_IS_MOUSE_DOWN 0 ≤ 1/2) :
    (vm.interceptInput sabView).getD SAB_OFFSETS_CAPTURED_LAYER_ID 0 = -1 := by
  unfold ViewManager.interceptInput
  rw [decide_eq_false (not_lt.mpr hle)]
  simp only [Bool.not_false, if_true]
  exact getD_set_self sabView _ _ _ hlen

theorem interceptInput_down (vm : ViewManager) (sabView : List ℚ)
    (hlen : SAB_OFFSETS_CAPTURED_LAYER_ID < sabView.length)
    (hlt : 1/2 < sabView.getD SAB_OFFSETS_IS_MOUSE_DOWN 0) :
    (vm.interceptInput sabView).getD SAB_OFFSETS_CAPTURED_LAYER_ID 0 =
      ((topmostCapture (sabView.getD SAB_OFFSETS_MOUSE_WORLD_X 0)
          (sabView.getD SAB_OFFSETS_MOUSE_WORLD_Y 0)
          vm.getVisibleLayers : Int) : ℚ) := by
  unfold ViewManager.interceptInput
  rw [decide_eq_true hlt]
  simp only [Bool.not_true, Bool.false_eq_true, if_false, scanTopDown_length]
  exact getD_set_self sabView _ _ _ hlen

theorem vmC3_eq :
    vmC3 = ⟨[⟨0, true, none⟩, ⟨1, true, some ⟨10, 10, 50, 50⟩⟩], true, 2⟩ :=
  rfl

theorem topmostCapture_vmC3_inside :
    topmostCapture 20 20 vmC3.getVisibleLayers = 1 := by
  have hB : isPointInViewport 20 20 (some ⟨10, 10, 50, 50⟩) = true :=
    (isPointInViewport_some_iff 20 20 10 10 50 50).mpr (by norm_num)
  have hvis : vmC3.getVisibleLayers =
      [⟨0, true, none⟩, ⟨1, true, some ⟨10, 10, 50, 50⟩⟩] := rfl
  rw [hvis]
  simp [topmostCapture, List.find?, hB]

theorem topmostCapture_vmC3_outside :
    topmostCapture 500 500 vmC3.getVisibleLayers = 0 := by
  have hB : isPointInViewport 500 500 (some ⟨10, 10, 50, 50⟩) = false := by
    rw [Bool.eq_false_iff]
    intro hc
    rcases (isPointInViewport_some_iff 500 500 10 10 50 50).mp hc with ⟨_, h2, _⟩
    norm_num at h2
  have hvis : vmC3.getVisibleLayers =
      [⟨0, true, none⟩, ⟨1, true, some ⟨10, 10, 50, 50⟩⟩] := rfl
  rw [hvis]
  simp [topmostCapture, List.find?, hB, isPointInViewport_none]

/-- C3: each frame, `interceptInput` writes `-1` when the button is up;
otherwise it writes the id of the topmost visible layer containing the
pointer (null viewport matches everything), `-1` when none contains it.
On layers `[A(null), B({10,10,50,50})]`: a held pointer at `(20,20)`
captures `B` (id 1), at `(500,500)` captures `A` (id 0), and a released
button yields `-1` at any pointer position. -/
theorem interceptInput_spec :
    (∀ (vm : ViewManager) (sabView : List ℚ),
      SAB_OFFSETS_CAPTURED_LAYER_ID < sabView.length →
      sabView.getD SAB_OFFSETS_IS_MOUSE_DOWN 0 ≤ 1/2 →
      (vm.interceptInput sabView).getD SAB_OFFSETS_CAPTURED_LAYER_ID 0 = -1) ∧
    (∀ (vm : ViewManager) (sabView : List ℚ),
      SAB_OFFSETS_CAPTURED_LAYER_ID < sabView.length →
      1/2 < sabView.getD SAB_OFFSETS_IS_MOUSE_DOWN 0 →
      (vm.interceptInput sabView).getD SAB_OFFSETS_CAPTURED_LAYER_ID 0 =
        ((topmostCapture (sabView.getD SAB_OFFSETS_MOUSE_WORLD_X 0)
            (sabView.getD SAB_OFFSETS_MOUSE_WORLD_Y 0)
            vm.getVisibleLayers : Int) : ℚ)) ∧
    (vmC3.interceptInput (sabC3 20 20 1)).getD SAB_OFFSETS_CAPTURED_LAYER_ID 0
      = 1 ∧
    (vmC3.interceptInput (sabC3 500 500 1)).getD SAB_OFFSETS_CAPTURED_LAYER_ID 0
      = 0 ∧
    (∀ px py : ℚ,
      (vmC3.interceptInput (sabC3 px py 0)).getD SAB_OFFSETS_CAPTURED_LAYER_ID 0
        = -1) := by
  refine ⟨interceptInput_up, interceptInput_down, ?_, ?_, ?_⟩
  · rw [interceptInput_down vmC3 (sabC3 20 20 1) (by norm_num [sabC3, SAB_OFFSETS_CAPTURED_LAYER_ID])
      (by rw [show (sabC3 20 20 1).getD SAB_OFFSETS_IS_MOUSE_DOWN 0 = 1 from rfl]
          norm_num)]
    rw [show (sabC3 20 20 1).getD SAB_OFFSETS_MOUSE_WORLD_X 0 = 20 from rfl,
        show (sabC3 20 20 1).getD SAB_OFFSETS_MOUSE_WORLD_Y 0 = 20 from rfl,
        topmostCapture_vmC3_inside]
    norm_num
  · rw [interceptInput_down vmC3 (sabC3 500 500 1) (by norm_num [sabC3, SAB_OFFSETS_CAPTURED_LAYER_ID])
      (by rw [show (sabC3 500 500 1).getD SAB_OFFSETS_IS_MOUSE_DOWN 0 = 1 from rfl]
          norm_num)]
    rw [show (sabC3 500 500 1).getD SAB_OFFSETS_MOUSE_WORLD_X 0 = 500 from rfl,
        show (sabC3 500 500 1).getD SAB_OFFSETS_MOUSE_WORLD_Y 0 = 500 from rfl,
        topmostCapture_vmC3_outside]
    norm_num
  · intro px py
    exact interceptInput_up vmC3 (sabC3 px py 0) (by norm_num [sabC3, SAB_OFFSETS_CAPTURED_LAYER_ID])
      (by rw [show (sabC3 px py 0).getD SAB_OFFSETS_IS_MOUSE_DOWN 0 = 0 from rfl]
          norm_num)

/-- Witness for C3: the up-branch instantiated at the example stack with the
button released and the pointer at `(20, 20)`. -/
theorem interceptInput_spec_witness :
    (vmC3.interceptInput (sabC3 20 20 0)).getD SAB_OFFSETS_CAPTURED_LAYER_ID 0
      = -1 :=
  interceptInput_spec.2.2.2.2 20 20

/-- C10: viewport containment in input arbitration is half-open: a null
viewport contains every point; a concrete viewport contains `(x, y)` iff
`x ∈ [vx, vx+w)` and `y ∈ [vy, vy+h)`, so left/top edges are inside and
right/bottom edges are outside. -/
theorem isPointInViewport_halfOpen (x y vx vy w h : ℚ) :
    (isPointInViewport x y none = true) ∧
    (isPointInViewport x y (some ⟨vx, vy, w, h⟩) = true ↔
      vx ≤ x ∧ x < vx + w ∧ vy ≤ y ∧ y < vy + h) ∧
    (vy ≤ y → y < vy + h → 0 < w →
      isPointInViewport vx y (some ⟨vx, vy, w, h⟩) = true) ∧
    (vx ≤ x → x < vx + w → 0 < h →
      isPointInViewport x vy (some ⟨vx, vy, w, h⟩) = true) ∧
    (isPointInViewport (vx + w) y (some ⟨vx, vy, w, h⟩) = false) ∧
    (isPointInViewport x (vy + h) (some ⟨vx, vy, w, h⟩) = false) := by
  refine ⟨rfl, isPointInViewport_some_iff x y vx vy w h, ?_, ?_, ?_, ?_⟩
  · intro h1 h2 h3
    exact (isPointInViewport_some_iff vx y vx vy w h).mpr
      ⟨le_refl vx, by linarith, h1, h2⟩
  · intro h1 h2 h3
    exact (isPointInViewport_some_iff x vy vx vy w h).mpr
      ⟨h1, h2, le_refl vy, by linarith⟩
  · rw [Bool.eq_false_iff]
    intro hc
    rcases (isPointInViewport_some_iff (vx + w) y vx vy w h).mp hc with ⟨_, h2, _⟩
    linarith
  · rw [Bool.eq_false_iff]
    intro hc
    rcases (isPointInViewport_some_iff x (vy + h) vx vy w h).mp hc with
      ⟨_, _, _, h4⟩
    linarith

/-- Witness for C10 on the spec's viewport `{10,10,50,50}`: the left-edge
point `(10, 20)` is inside, the right-edge point `(60, 20)` is not. -/
theorem isPointInViewport_halfOpen_witness :
    isPointInViewport 10 20 (some ⟨10, 10, 50, 50⟩) = true ∧
    isPointInViewport 60 20 (some ⟨10, 10, 50, 50⟩) = false := by
  constructor
  · exact (isPointInViewport_halfOpen 10 20 10 10 50 50).2.2.1
      (by norm_num) (by norm_num) (by norm_num)
  · have h60 := (isPointInViewport_halfOpen (60 : ℚ) 20 10 10 50 50).2.2.2.2.1
    norm_num at h60 ⊢
    exact h60

/-- C1, evaluated at the failing sequence. After a valid 2×2 update the
storage buffer holds 16 bytes. A following valid 3×3 update leaves
`getMapSize` at 3 but does **not** recreate the buffer — because
`currentMapSize` is assigned before `needsNewBuffer` is computed, the
size-changed comparison is always false and the stale 16-byte buffer is
kept for a grid that needs 36 bytes. This contradicts the claimed
"recreated exactly when the stored size differs from the previous size"
(and the code's own comment); `MapManager` moreover has no version counter
that could increment. -/
theorem updateMapData_resize_keeps_stale_buffer :
    (MapManager.empty.init.updateMapData (List.replicate 4 0) 2).tilemapStorageBuffer
      = some 16 ∧
    ((MapManager.empty.init.updateMapData (List.replicate 4 0) 2).updateMapData
      (List.replicate 9 0) 3).getMapSize = 3 ∧
    ((MapManager.empty.init.updateMapData (List.replicate 4 0) 2).updateMapData
      (List.replicate 9 0) 3).tilemapStorageBuffer = some 16 ∧
    some 16 ≠ some (9 * 4) := by
  refine ⟨rfl, rfl, rfl, by decide⟩

/-! ### Association-map lemmas -/

theorem mapGet_cons (a : ℕ × UnitInterpolationState) (t : InterpMap) (k : ℕ) :
    mapGet (a :: t) k = if a.1 = k then some a.2 else mapGet t k := by
  unfold mapGet
  by_cases h : a.1 = k
  · rw [List.find?_cons_of_pos _ (by simpa using h), if_pos h]
    rfl
  · rw [List.find?_cons_of_neg _ (by simpa using h), if_neg h]

theorem find?_map_replace_self (m : InterpMap) (k : ℕ)
    (v : UnitInterpolationState) (h : m.any (fun p => p.1 == k) = true) :
    mapGet (m.map (fun p => if p.1 = k then (k, v) else p)) k = some v := by
  induction m with
  | nil => simp at h
  | cons a t ih =>
      by_cases ha : a.1 = k
      · simp [List.map_cons, if_pos ha, mapGet_cons]
      · have h' : t.any (fun p => p.1 == k) = true := by
          simp only [List.any_cons, Bool.or_eq_true, beq_iff_eq] at h
          tauto
        simp only [List.map_cons, if_neg ha, mapGet_cons, if_neg ha]
        exact ih h'

theorem mapGet_map_replace_ne (m : InterpMap) (k k' : ℕ)
    (v : UnitInterpolationState) (hne : k' ≠ k) :
    mapGet (m.map (fun p => if p.1 = k then (k, v) else p)) k' = mapGet m k' := by
  induction m with
  | nil => rfl
  | cons a t ih =>
      by_cases ha : a.1 = k
      · simp only [List.map_cons, if_pos ha, mapGet_cons]
        rw [if_neg (Ne.symm hne), if_neg (by rw [ha]; exact Ne.symm hne)]
        exact ih
      · simp only [List.map_cons, if_neg ha, mapGet_cons]
        by_cases ha' : a.1 = k'
        · rw [if_pos ha', if_pos ha']
        · rw [if_neg ha', if_neg ha']
          exact ih

theorem mapGet_append_single_self (m : InterpMap) (k : ℕ)
    (v : UnitInterpolationState) (h : m.any (fun p => p.1 == k) = false) :
    mapGet (m ++ [(k, v)]) k = some v := by
  induction m with
  | nil => simp [mapGet_cons]
  | cons a t ih =>
      simp only [List.any_cons, Bool.or_eq_false_iff, beq_eq_false_iff_ne] at h
      rw [List.cons_append, mapGet_cons, if_neg h.1]
      exact ih (by simpa using h.2)

theorem mapGet_append_single_ne (m : InterpMap) (k k' : ℕ)
    (v : UnitInterpolationState) (hne : k' ≠ k) :
    mapGet (m ++ [(k, v)]) k' = mapGet m k' := by
  induction m with
  | nil => simp [mapGet_cons, mapGet, Ne.symm hne]
  | cons a t ih =>
      rw [List.cons_append, mapGet_cons, mapGet_cons]
      by_cases ha : a.1 = k'
      · rw [if_pos ha, if_pos ha]
      · rw [if_neg ha, if_neg ha]
        exact ih

theorem mapGet_mapSet_self (m : InterpMap) (k : ℕ)
    (v : UnitInterpolationState) : mapGet (mapSet m k v) k = some v := by
  unfold mapSet
  by_cases h : m.any (fun p => p.1 == k) = true
  · rw [if_pos h]
    exact find?_map_replace_self m k v h
  · rw [if_neg h]
    exact mapGet_append_single_self m k v (Bool.eq_false_iff.mpr h)

theorem mapGet_mapSet_ne (m : InterpMap) (k k' : ℕ)
    (v : UnitInterpolationState) (hne : k' ≠ k) :
    mapGet (mapSet m k v) k' = mapGet m k' := by
  unfold mapSet
  by_cases h : m.any (fun p => p.1 == k) = true
  · rw [if_pos h]
    exact mapGet_map_replace_ne m k k' v hne
  · rw [if_neg h]
    exact mapGet_append_single_ne m k k' v hne

theorem mapGet_mapDelete_self (m : InterpMap) (k : ℕ) :
    mapGet (mapDelete m k) k = none := by
  unfold mapDelete
  induction m with
  | nil => rfl
  | cons a t ih =>
      by_cases ha : a.1 = k
      · rw [List.filter_cons_of_neg (by simpa using ha)]
        exact ih
      · rw [List.filter_cons_of_pos (by simpa using ha), mapGet_cons, if_neg ha]
        exact ih

theorem mapGet_mapDelete_ne (m : InterpMap) (k k' : ℕ) (hne : k' ≠ k) :
    mapGet (mapDelete m k) k' = mapGet m k' := by
  unfold mapDelete
  induction m with
  | nil => rfl
  | cons a t ih =>
      by_cases ha : a.1 = k
      · rw [List.filter_cons_of_neg (by simpa using ha), mapGet_cons,
          if_neg (by rw [ha]; exact Ne.symm hne)]
        exact ih
      · rw [List.filter_cons_of_pos (by simpa using ha), mapGet_cons, mapGet_cons]
        by_cases ha' : a.1 = k'
        · rw [if_pos ha', if_pos ha']
        · rw [if_neg ha', if_neg ha']
          exact ih

theorem mapGet_eq_some_mem (m : InterpMap) (k : ℕ)
    (v : UnitInterpolationState) (h : mapGet m k = some v) : (k, v) ∈ m := by
  induction m with
  | nil => simp [mapGet] at h
  | cons a t ih =>
      rw [mapGet_cons] at h
      by_cases ha : a.1 = k
      · rw [if_pos ha] at h
        have hv : a.2 = v := by injection h
        have haa : a = (k, v) := by
          obtain ⟨a1, a2⟩ := a
          simp_all
        rw [← haa]
        exact List.mem_cons_self _ _
      · rw [if_neg ha] at h
        exact List.mem_cons_of_mem _ (ih h)

theorem mapGet_of_mem_nodup (m : InterpMap) (k : ℕ)
    (v : UnitInterpolationState) :
    (k, v) ∈ m → (m.map Prod.fst).Nodup → mapGet m k = some v := by
  induction m with
  | nil => intro hmem _; simp at hmem
  | cons a t ih =>
      intro hmem hnd
      simp only [List.map_cons, List.nodup_cons] at hnd
      rw [mapGet_cons]
      rcases List.mem_cons.mp hmem with heq | hm
      · rw [← heq]
        simp
      · have ha : a.1 ≠ k := by
          intro hh
          exact hnd.1 (hh ▸ List.mem_map.mpr ⟨(k, v), hm, rfl⟩)
        rw [if_neg ha]
        exact ih hm hnd.2

theorem nodup_keys_mapSet (m : InterpMap) (k : ℕ)
    (v : UnitInterpolationState) (h : (m.map Prod.fst).Nodup) :
    ((mapSet m k v).map Prod.fst).Nodup := by
  unfold mapSet
  by_cases hany : m.any (fun p => p.1 == k) = true
  · rw [if_pos hany]
    have hkeys : (m.map (fun p => if p.1 = k then (k, v) else p)).map Prod.fst
        = m.map Prod.fst := by
      rw [List.map_map]
      apply List.map_congr_left
      intro p _
      by_cases hp1 : p.1 = k
      · simp [hp1]
      · simp [hp1]
    rw [hkeys]
    exact h
  · rw [if_neg hany, List.map_append]
    simp only [List.map_cons, List.map_nil]
    refine List.Nodup.append h (List.nodup_singleton k) ?_
    intro x hx hx'
    simp only [List.mem_singleton] at hx'
    subst hx'
    apply hany
    simp only [List.any_eq_true, beq_iff_eq]
    rcases List.mem_map.mp hx with ⟨p, hp, hpk⟩
    exact ⟨p, hp, hpk⟩

theorem nodup_keys_mapDelete (m : InterpMap) (k : ℕ)
    (h : (m.map Prod.fst).Nodup) :
    ((mapDelete m k).map Prod.fst).Nodup :=
  List.Nodup.sublist ((List.filter_sublist m).map Prod.fst) h

theorem mapGet_isEmpty_false (m : InterpMap) (k : ℕ)
    (v : UnitInterpolationState) (h : mapGet m k = some v) :
    m.isEmpty = false := by
  cases m with
  | nil => simp [mapGet] at h
  | cons a t => rfl

/-! ### Position-change detection loop lemmas -/

theorem getD_set_ne {α : Type _} (l : List α) (p q : ℕ) (v d : α)
    (h : p ≠ q) : (l.set q v).getD p d = l.getD p d := by
  induction l generalizing p q with
  | nil => rfl
  | cons a t ih =>
      cases q with
      | zero =>
          cases p with
          | zero => exact absurd rfl h
          | succ j => simp
      | succ j' =>
          cases p with
          | zero => simp
          | succ j => simpa using ih j j' (by omega)

theorem detectStep_get_self (visual newData : List ℚ) (now : ℚ)
    (st : InterpMap) (i : ℕ) :
    mapGet (detectStep visual newData now st i) i =
      if visual.getD (i*4) 0 ≠ newData.getD (i*4) 0 ∨
         visual.getD (i*4+1) 0 ≠ newData.getD (i*4+1) 0
      then some ⟨visual.getD (i*4) 0, visual.getD (i*4+1) 0,
                 newData.getD (i*4) 0, newData.getD (i*4+1) 0, now⟩
      else none := by
  simp only [detectStep]
  by_cases hc : visual.getD (i*4) 0 ≠ newData.getD (i*4) 0 ∨
      visual.getD (i*4+1) 0 ≠ newData.getD (i*4+1) 0
  · rw [if_pos hc, if_pos hc]
    exact mapGet_mapSet_self _ _ _
  · rw [if_neg hc, if_neg hc]
    exact mapGet_mapDelete_self _ _

theorem detectStep_get_ne (visual newData : List ℚ) (now : ℚ)
    (st : InterpMap) (i j : ℕ) (h : j ≠ i) :
    mapGet (detectStep visual newData now st i) j = mapGet st j := by
  simp only [detectStep]
  split
  · exact mapGet_mapSet_ne _ _ _ _ h
  · exact mapGet_mapDelete_ne _ _ _ h

theorem detectStep_nodup (visual newData : List ℚ) (now : ℚ)
    (st : InterpMap) (i : ℕ) (h : (st.map Prod.fst).Nodup) :
    ((detectStep visual newData now st i).map Prod.fst).Nodup := by
  simp only [detectStep]
  split
  · exact nodup_keys_mapSet _ _ _ h
  · exact nodup_keys_mapDelete _ _ h

theorem detect_foldl_get_not_mem (visual newData : List ℚ) (now : ℚ)
    (l : List ℕ) (st : InterpMap) (i : ℕ) (h : i ∉ l) :
    mapGet (l.foldl (detectStep visual newData now) st) i = mapGet st i := by
  induction l generalizing st with
  | nil => rfl
  | cons a t ih =>
      rw [List.foldl_cons,
        ih _ (fun hm => h (List.mem_cons_of_mem _ hm))]
      exact detectStep_get_ne _ _ _ _ _ _
        (fun hh => h (hh ▸ List.mem_cons_self a t))

theorem detect_foldl_get_mem (visual newData : List ℚ) (now : ℚ)
    (l : List ℕ) (st : InterpMap) (i : ℕ)
    (hmem : i ∈ l) (hnd : l.Nodup) :
    mapGet (l.foldl (detectStep visual newData now) st) i =
      if visual.getD (i*4) 0 ≠ newData.getD (i*4) 0 ∨
         visual.getD (i*4+1) 0 ≠ newData.getD (i*4+1) 0
      then some ⟨visual.getD (i*4) 0, visual.getD (i*4+1) 0,
                 newData.getD (i*4) 0, newData.getD (i*4+1) 0, now⟩
      else none := by
  induction l generalizing st with
  | nil => simp at hmem
  | cons a t ih =>
      rw [List.foldl_cons]
      rcases List.mem_cons.mp hmem with rfl | hm
      · rw [detect_foldl_get_not_mem _ _ _ _ _ _
          (List.nodup_cons.mp hnd).1]
        exact detectStep_get_self _ _ _ _ _
      · exact ih _ hm (List.nodup_cons.mp hnd).2

theorem detect_foldl_nodup (visual newData : List ℚ) (now : ℚ)
    (l : List ℕ) (st : InterpMap) (h : (st.map Prod.fst).Nodup) :
    (((l.foldl (detectStep visual newData now) st)).map Prod.fst).Nodup := by
  induction l generalizing st with
  | nil => exact h
  | cons a t ih =>
      rw [List.foldl_cons]
      exact ih _ (detectStep_nodup _ _ _ _ _ h)

/-! ### Interpolation loop lemmas -/

theorem interpStep_snd (committed : List ℚ) (now : ℚ)
    (acc : List ℚ × InterpMap) (e : ℕ × UnitInterpolationState) :
    (interpStep committed now acc e).2 =
      if 1 ≤ interpProgress e.2 now then mapDelete acc.2 e.1 else acc.2 := rfl

theorem interpStep_fst_length (committed : List ℚ) (now : ℚ)
    (acc : List ℚ × InterpMap) (e : ℕ × UnitInterpolationState) :
    (interpStep committed now acc e).1.length = acc.1.length := by
  simp [interpStep]

theorem interp_foldl_snd (committed : List ℚ) (now : ℚ) (es : InterpMap) :
    ∀ acc : List ℚ × InterpMap,
      (es.foldl (interpStep committed now) acc).2 =
        es.foldl
          (fun s e => if 1 ≤ interpProgress e.2 now then mapDelete s e.1 else s)
          acc.2 := by
  induction es with
  | nil => intro acc; rfl
  | cons e t ih =>
      intro acc
      rw [List.foldl_cons, List.foldl_cons, ih, interpStep_snd]

theorem deleteFold_get_not_mem (now : ℚ) (es : InterpMap) (s : InterpMap)
    (i : ℕ) (h : ∀ e ∈ es, e.1 ≠ i) :
    mapGet (es.foldl
      (fun s e => if 1 ≤ interpProgress e.2 now then mapDelete s e.1 else s) s) i
      = mapGet s i := by
  induction es generalizing s with
  | nil => rfl
  | cons e t ih =>
      rw [List.foldl_cons, ih _ (fun e' he' => h e' (List.mem_cons_of_mem _ he'))]
      split
      · exact mapGet_mapDelete_ne _ _ _
          (fun hh => h e (List.mem_cons_self _ _) hh.symm)
      · rfl

theorem deleteFold_get_none (now : ℚ) (es : InterpMap) (s : InterpMap)
    (i : ℕ) (h : mapGet s i = none) :
    mapGet (es.foldl
      (fun s e => if 1 ≤ interpProgress e.2 now then mapDelete s e.1 else s) s) i
      = none := by
  induction es generalizing s with
  | nil => exact h
  | cons e t ih =>
      rw [List.foldl_cons]
      apply ih
      split
      · by_cases he : i = e.1
        · rw [he]
          exact mapGet_mapDelete_self _ _
        · rw [mapGet_mapDelete_ne _ _ _ he]
          exact h
      · exact h

theorem deleteFold_get_mem (now : ℚ) (es : InterpMap) (s : InterpMap)
    (i : ℕ) (st : UnitInterpolationState)
    (hmem : (i, st) ∈ es) (hnd : (es.map Prod.fst).Nodup) :
    mapGet (es.foldl
      (fun s e => if 1 ≤ interpProgress e.2 now then mapDelete s e.1 else s) s) i
      = if 1 ≤ interpProgress st now then none else mapGet s i := by
  induction es generalizing s with
  | nil => simp at hmem
  | cons e t ih =>
      simp only [List.map_cons, List.nodup_cons] at hnd
      rw [List.foldl_cons]
      rcases List.mem_cons.mp hmem with heq | hm
      · subst heq
        have hnotin : ∀ e' ∈ t, e'.1 ≠ i := by
          intro e' he' hcon
          exact hnd.1 (hcon ▸ List.mem_map.mpr ⟨e', he', rfl⟩)
        rw [deleteFold_get_not_mem now t _ i hnotin]
        split
        · exact mapGet_mapDelete_self _ _
        · rfl
      · have hei : e.1 ≠ i := by
          intro hcon
          exact hnd.1 (hcon ▸ List.mem_map.mpr ⟨(i, st), hm, rfl⟩)
        rw [ih _ hm hnd.2]
        split
        · rfl
        · split
          · exact mapGet_mapDelete_ne _ _ _ (Ne.symm hei)
          · rfl

theorem interp_foldl_fst_length (committed : List ℚ) (now : ℚ)
    (es : InterpMap) :
    ∀ acc : List ℚ × InterpMap,
      (es.foldl (interpStep committed now) acc).1.length = acc.1.length := by
  induction es with
  | nil => intro acc; rfl
  | cons e t ih =>
      intro acc
      rw [List.foldl_cons, ih, interpStep_fst_length]

theorem interpStep_fst_not_block (committed : List ℚ) (now : ℚ)
    (acc : List ℚ × InterpMap) (e : ℕ × UnitInterpolationState)
    (p : ℕ) (d : ℚ) (h : ¬ (e.1 * 4 ≤ p ∧ p < e.1 * 4 + 4)) :
    (interpStep committed now acc e).1.getD p d = acc.1.getD p d := by
  simp only [interpStep]
  rw [getD_set_ne _ _ _ _ _ (by omega), getD_set_ne _ _ _ _ _ (by omega),
    getD_set_ne _ _ _ _ _ (by omega), getD_set_ne _ _ _ _ _ (by omega)]

theorem interp_foldl_fst_not_mem (committed : List ℚ) (now : ℚ)
    (es : InterpMap) (p : ℕ) (d : ℚ)
    (h : ∀ e ∈ es, ¬ (e.1 * 4 ≤ p ∧ p < e.1 * 4 + 4)) :
    ∀ acc : List ℚ × InterpMap,
      (es.foldl (interpStep committed now) acc).1.getD p d = acc.1.getD p d := by
  induction es with
  | nil => intro acc; rfl
  | cons e t ih =>
      intro acc
      rw [List.foldl_cons,
        ih (fun e' he' => h e' (List.mem_cons_of_mem _ he')) _,
        interpStep_fst_not_block _ _ _ _ _ _ (h e (List.mem_cons_self _ _))]

theorem interpStep_fst_block (committed : List ℚ) (now : ℚ)
    (acc : List ℚ × InterpMap) (i : ℕ) (st : UnitInterpolationState)
    (hlen : i * 4 + 3 < acc.1.length) :
    (interpStep committed now acc (i, st)).1.getD (i*4) 0 =
      st.startX + (st.targetX - st.startX) * interpProgress st now ∧
    (interpStep committed now acc (i, st)).1.getD (i*4+1) 0 =
      st.startY + (st.targetY - st.startY) * interpProgress st now ∧
    (interpStep committed now acc (i, st)).1.getD (i*4+2) 0 =
      committed.getD (i*4+2) 0 ∧
    (interpStep committed now acc (i, st)).1.getD (i*4+3) 0 =
      committed.getD (i*4+3) 0 := by
  simp only [interpStep]
  have l0 : (acc.1.set (i*4)
      (st.startX + (st.targetX - st.startX) * interpProgress st now)).length
      = acc.1.length := by simp
  refine ⟨?_, ?_, ?_, ?_⟩
  · rw [getD_set_ne _ _ _ _ _ (by omega), getD_set_ne _ _ _ _ _ (by omega),
      getD_set_ne _ _ _ _ _ (by omega)]
    exact getD_set_self _ _ _ _ (by omega)
  · rw [getD_set_ne _ _ _ _ _ (by omega), getD_set_ne _ _ _ _ _ (by omega)]
    exact getD_set_self _ _ _ _ (by simp; omega)
  · rw [getD_set_ne _ _ _ _ _ (by omega)]
    exact getD_set_self _ _ _ _ (by simp; omega)
  · exact getD_set_self _ _ _ _ (by simp; omega)

theorem interp_foldl_fst_mem (committed : List ℚ) (now : ℚ)
    (es : InterpMap) (i : ℕ) (st : UnitInterpolationState) :
    ∀ acc : List ℚ × InterpMap,
      (i, st) ∈ es → (es.map Prod.fst).Nodup → i * 4 + 3 < acc.1.length →
      ((es.foldl (interpStep committed now) acc).1.getD (i*4) 0 =
        st.startX + (st.targetX - st.startX) * interpProgress st now ∧
      (es.foldl (interpStep committed now) acc).1.getD (i*4+1) 0 =
        st.startY + (st.targetY - st.startY) * interpProgress st now ∧
      (es.foldl (interpStep committed now) acc).1.getD (i*4+2) 0 =
        committed.getD (i*4+2) 0 ∧
      (es.foldl (interpStep committed now) acc).1.getD (i*4+3) 0 =
        committed.getD (i*4+3) 0) := by
  induction es with
  | nil => intro acc hmem; simp at hmem
  | cons e t ih =>
      intro acc hmem hnd hlen
      simp only [List.map_cons, List.nodup_cons] at hnd
      rw [List.foldl_cons]
      rcases List.mem_cons.mp hmem with heq | hm
      · subst heq
        have hnotin : ∀ p' ∈ t, p'.1 ≠ i := by
          intro p' hp' hcon
          exact hnd.1 (hcon ▸ List.mem_map.mpr ⟨p', hp', rfl⟩)
        have hblock := interpStep_fst_block committed now acc i st hlen
        refine ⟨?_, ?_, ?_, ?_⟩
        · rw [interp_foldl_fst_not_mem _ _ _ _ _
            (fun e' he' => by have := hnotin e' he'; omega) _]
          exact hblock.1
        · rw [interp_foldl_fst_not_mem _ _ _ _ _
            (fun e' he' => by have := hnotin e' he'; omega) _]
          exact hblock.2.1
        · rw [interp_foldl_fst_not_mem _ _ _ _ _
            (fun e' he' => by have := hnotin e' he'; omega) _]
          exact hblock.2.2.1
        · rw [interp_foldl_fst_not_mem _ _ _ _ _
            (fun e' he' => by have := hnotin e' he'; omega) _]
          exact hblock.2.2.2
      · exact ih _ hm hnd.2 (by rw [interpStep_fst_length]; exact hlen)

/-! ### Manager-level characterizations -/

theorem updateInterpolation_bufferVersion (m : EntityManager) (now : ℚ) :
    (m.updateInterpolation now).bufferVersion = m.bufferVersion := by
  unfold EntityManager.updateInterpolation
  split
  · rfl
  · split
    · rfl
    · rfl

theorem update_bufferVersion (m : EntityManager) (now : ℚ) :
    (m.update now).bufferVersion = m.bufferVersion := by
  unfold EntityManager.update
  split
  · rfl
  · exact updateInterpolation_bufferVersion m now

theorem updateInterpolation_of_some (m : EntityManager) (now : ℚ)
    (data : List ℚ) (hdata : m.currentUnitData = some data)
    (hne : m.interpolationStates.isEmpty = false) :
    m.updateInterpolation now =
      { m with
        interpolatedData := some (m.interpolationStates.foldl
          (interpStep data now) (data, m.interpolationStates)).1,
        interpolationStates := (m.interpolationStates.foldl
          (interpStep data now) (data, m.interpolationStates)).2 } := by
  obtain ⟨dev, buf, cnt, cud, ver, states, idata⟩ := m
  simp only at hdata hne ⊢
  subst hdata
  simp only [EntityManager.updateInterpolation, hne, Bool.false_eq_true,
    if_false]

theorem ite_updateInterpolation_bufferVersion (P : Prop) [Decidable P]
    (m₂ : EntityManager) (n : ℚ) :
    (if P then m₂ else m₂.updateInterpolation n).bufferVersion
      = m₂.bufferVersion := by
  split
  · rfl
  · exact updateInterpolation_bufferVersion _ _

theorem updateUnitData_bufferVersion (m : EntityManager) (d : List ℚ)
    (c : ℕ) (n : ℚ) :
    (m.updateUnitData d c n).bufferVersion =
      if (!m.device) = true then m.bufferVersion
      else if d.length ≠ c * 4 then m.bufferVersion
      else if (m.unitStorageBuffer.isNone ||
          decide (m.currentUnitCount ≠ c)) = true
      then m.bufferVersion + 1 else m.bufferVersion := by
  unfold EntityManager.updateUnitData
  by_cases h1 : (!m.device) = true
  · simp only [if_pos h1]
  · simp only [if_neg h1]
    by_cases h2 : d.length ≠ c * 4
    · simp only [if_pos h2]
    · simp only [if_neg h2]
      by_cases h3 : (m.unitStorageBuffer.isNone ||
          decide (m.currentUnitCount ≠ c)) = true
      · simp only [if_pos h3]
        rw [ite_updateInterpolation_bufferVersion]
      · simp only [if_neg h3]
        rw [ite_updateInterpolation_bufferVersion]

theorem EMstep_version_mono (m : EntityManager) (op : EMOp) :
    m.bufferVersion ≤ (EMstep m op).bufferVersion := by
  cases op with
  | updateUnits d c n =>
      show m.bufferVersion ≤ (m.updateUnitData d c n).bufferVersion
      rw [updateUnitData_bufferVersion]
      split
      · exact le_refl _
      · split
        · exact le_refl _
        · split
          · exact Nat.le_succ _
          · exact le_refl _
  | frame n =>
      show m.bufferVersion ≤ (m.update n).bufferVersion
      rw [update_bufferVersion]

theorem foldl_version_mono (ops : List EMOp) :
    ∀ m : EntityManager, m.bufferVersion ≤ (ops.foldl EMstep m).bufferVersion := by
  induction ops with
  | nil => intro m; exact le_refl _
  | cons op t ih =>
      intro m
      rw [List.foldl_cons]
      exact le_trans (EMstep_version_mono m op) (ih _)

theorem updateUnitData_states (m : EntityManager) (unitData : List ℚ)
    (unitCount : ℕ) (now : ℚ) (cur : List ℚ)
    (hdev : m.device = true)
    (hcur : m.currentUnitData = some cur)
    (hcount : m.currentUnitCount = unitCount)
    (hlen : unitData.length = unitCount * 4) :
    (m.updateUnitData unitData unitCount now).interpolationStates =
      (if ((List.range unitCount).foldl
            (detectStep (m.interpolatedData.getD cur) unitData now)
            m.interpolationStates).isEmpty = true
       then (List.range unitCount).foldl
            (detectStep (m.interpolatedData.getD cur) unitData now)
            m.interpolationStates
       else (((List.range unitCount).foldl
            (detectStep (m.interpolatedData.getD cur) unitData now)
            m.interpolationStates).foldl (interpStep unitData now)
            (unitData, (List.range unitCount).foldl
              (detectStep (m.interpolatedData.getD cur) unitData now)
              m.interpolationStates)).2) := by
  obtain ⟨dev, buf, cnt, cud, ver, states, idata⟩ := m
  simp only at hdev hcur hcount ⊢
  subst hdev
  subst hcur
  subst hcount
  unfold EntityManager.updateUnitData
  simp only [Bool.not_true, Bool.false_eq_true, if_false]
  rw [if_neg (fun h => h hlen)]
  simp only [decide_eq_false (show ¬(cnt ≠ cnt) from fun h => h rfl),
    Bool.or_false, eq_self_iff_true, if_true]
  by_cases hb : buf.isNone = true
  · simp only [hb, if_true]
    split
    · rfl
    · rename_i hF
      rw [updateInterpolation_of_some _ now unitData rfl
        (Bool.eq_false_iff.mpr hF)]
  · simp only [Bool.eq_false_iff.mpr hb, Bool.false_eq_true, if_false]
    split
    · rfl
    · rename_i hF
      rw [updateInterpolation_of_some _ now unitData rfl
        (Bool.eq_false_iff.mpr hF)]

/-- C5: `getBufferVersion` increments exactly once per valid `updateUnitData`
call whose count differs from the stored count or that arrives with no live
buffer; it never changes on a valid unchanged-count update or on a per-frame
`update` call; and over any operation sequence it is monotonically
non-decreasing. -/
theorem getBufferVersion_policy :
    (∀ (m : EntityManager) (d : List ℚ) (c : ℕ) (n : ℚ),
      m.device = true → d.length = c * 4 →
      (m.unitStorageBuffer = none ∨ m.currentUnitCount ≠ c) →
      (m.updateUnitData d c n).getBufferVersion = m.getBufferVersion + 1) ∧
    (∀ (m : EntityManager) (d : List ℚ) (c : ℕ) (n : ℚ),
      m.device = true → d.length = c * 4 →
      m.unitStorageBuffer ≠ none → m.currentUnitCount = c →
      (m.updateUnitData d c n).getBufferVersion = m.getBufferVersion) ∧
    (∀ (m : EntityManager) (n : ℚ),
      (m.update n).getBufferVersion = m.getBufferVersion) ∧
    (∀ (m : EntityManager) (ops : List EMOp),
      m.getBufferVersion ≤ (ops.foldl EMstep m).getBufferVersion) := by
  refine ⟨?_, ?_, ?_, ?_⟩
  · intro m d c n hdev hlen hnew
    simp only [EntityManager.getBufferVersion]
    rw [updateUnitData_bufferVersion, if_neg (by rw [hdev]; simp),
      if_neg (fun h => h hlen), if_pos ?_]
    rcases hnew with h | h
    · simp [h]
    · simp [h]
  · intro m d c n hdev hlen hbuf hcount
    simp only [EntityManager.getBufferVersion]
    rw [updateUnitData_bufferVersion, if_neg (by rw [hdev]; simp),
      if_neg (fun h => h hlen), if_neg ?_]
    intro h
    rcases Bool.or_eq_true_iff.mp h with h | h
    · exact hbuf (Option.isNone_iff_eq_none.mp h)
    · exact (of_decide_eq_true h) hcount
  · intro m n
    exact update_bufferVersion m n
  · intro m ops
    exact foldl_version_mono ops m

/-- Witness for C5: a first valid update (no buffer yet) bumps the version
from 0 to 1; a per-frame `update` then leaves it at 1. -/
theorem getBufferVersion_policy_witness :
    (EntityManager.empty.init.updateUnitData [] 0 0).getBufferVersion
      = EntityManager.empty.init.getBufferVersion + 1 ∧
    ((EntityManager.empty.init.updateUnitData [] 0 0).update 1).getBufferVersion
      = (EntityManager.empty.init.updateUnitData [] 0 0).getBufferVersion := by
  constructor
  · exact getBufferVersion_policy.1 EntityManager.empty.init [] 0 0 rfl rfl
      (Or.inl rfl)
  · exact getBufferVersion_policy.2.2.1 _ 1

/-- C2: on a valid `updateUnitData` call with unchanged entity count, every
slot whose new target position differs from the currently displayed position
(the interpolated snapshot when one is live, else the committed table) gets
an interpolation state whose `start` is that displayed position — never the
previous interpolation's target — and whose `target` is the new position;
slots whose position did not change have any existing state dropped. -/
theorem updateUnitData_reanchors_from_displayed
    (m : EntityManager) (unitData : List ℚ) (unitCount : ℕ) (now : ℚ)
    (cur visual : List ℚ)
    (hdev : m.device = true)
    (hcur : m.currentUnitData = some cur)
    (hcount : m.currentUnitCount = unitCount)
    (hlen : unitData.length = unitCount * 4)
    (hvis : visual = m.interpolatedData.getD cur)
    (hnd : (m.interpolationStates.map Prod.fst).Nodup)
    (i : ℕ) (hi : i < unitCount) :
    ((visual.getD (i*4) 0 ≠ unitData.getD (i*4) 0 ∨
      visual.getD (i*4+1) 0 ≠ unitData.getD (i*4+1) 0) →
      mapGet (m.updateUnitData unitData unitCount now).interpolationStates i =
        some ⟨visual.getD (i*4) 0, visual.getD (i*4+1) 0,
              unitData.getD (i*4) 0, unitData.getD (i*4+1) 0, now⟩) ∧
    ((visual.getD (i*4) 0 = unitData.getD (i*4) 0 ∧
      visual.getD (i*4+1) 0 = unitData.getD (i*4+1) 0) →
      mapGet (m.updateUnitData unitData unitCount now).interpolationStates i =
        none) := by
  subst hvis
  rw [updateUnitData_states m unitData unitCount now cur hdev hcur hcount hlen]
  set s := (List.range unitCount).foldl
    (detectStep (m.interpolatedData.getD cur) unitData now)
    m.interpolationStates with hs
  have hmem : i ∈ List.range unitCount := List.mem_range.mpr hi
  have hget := detect_foldl_get_mem (m.interpolatedData.getD cur) unitData now
    (List.range unitCount) m.interpolationStates i hmem (List.nodup_range _)
  rw [← hs] at hget
  constructor
  · intro hchange
    rw [if_pos hchange] at hget
    have hne : s.isEmpty = false := mapGet_isEmpty_false s i _ hget
    rw [if_neg (by rw [hne]; exact Bool.false_ne_true), interp_foldl_snd]
    have hfresh := mapGet_eq_some_mem _ _ _ hget
    have hsnd : (s.map Prod.fst).Nodup := by
      rw [hs]
      exact detect_foldl_nodup _ _ _ _ _ hnd
    rw [deleteFold_get_mem now s _ i _ hfresh hsnd, if_neg ?_]
    · exact hget
    · simp only [interpProgress, MOVE_DURATION]
      norm_num
  · intro hsame
    have hnone : mapGet s i = none := by
      rw [hget, if_neg (by push_neg; exact hsame)]
    by_cases hE : s.isEmpty = true
    · rw [if_pos hE]
      exact hnone
    · rw [if_neg hE, interp_foldl_snd]
      exact deleteFold_get_none now s _ i hnone

/-- Witness for C2: updating the single unit's position from the displayed
`(0, 0)` to `(1, 0)` at time 2 creates the interpolation state
`{start := (0,0), target := (1,0), startTime := 2}`. -/
theorem updateUnitData_reanchors_witness :
    mapGet ((mC2.updateUnitData [1, 0, 5, 7] 1 2).interpolationStates) 0 =
      some ⟨0, 0, 1, 0, 2⟩ := by
  have h := (updateUnitData_reanchors_from_displayed mC2 [1, 0, 5, 7] 1 2
    [0, 0, 5, 7] [0, 0, 5, 7] rfl rfl rfl rfl rfl (by simp [mC2]) 0
    (by norm_num)).1
  have hx : (([0, 0, 5, 7] : List ℚ).getD (0*4) 0
      ≠ ([1, 0, 5, 7] : List ℚ).getD (0*4) 0) := by
    rw [show (([0, 0, 5, 7] : List ℚ).getD (0*4) 0) = 0 from rfl,
        show (([1, 0, 5, 7] : List ℚ).getD (0*4) 0) = 1 from rfl]
    norm_num
  simpa using h (Or.inl hx)

/-- C6: for every active interpolation slot, advancing interpolation at time
`now` sets the displayed position to `start + (target - start) * progress`
with `progress = clamp((now - startTime) / MOVE_DURATION, 0, 1)`, keeps the
slot's typeId and stateBits at the committed table's values, and removes the
slot from the active set exactly when progress reaches 1. -/
theorem updateInterpolation_lerp
    (m : EntityManager) (now : ℚ) (data : List ℚ)
    (i : ℕ) (st : UnitInterpolationState)
    (hdata : m.currentUnitData = some data)
    (hmem : (i, st) ∈ m.interpolationStates)
    (hnd : (m.interpolationStates.map Prod.fst).Nodup)
    (htime : st.startTime ≤ now)
    (hlen : i * 4 + 3 < data.length) :
    ∃ interp : List ℚ,
      (m.updateInterpolation now).interpolatedData = some interp ∧
      interp.getD (i*4) 0 = st.startX + (st.targetX - st.startX) *
        (max 0 (min 1 ((now - st.startTime) / MOVE_DURATION))) ∧
      interp.getD (i*4+1) 0 = st.startY + (st.targetY - st.startY) *
        (max 0 (min 1 ((now - st.startTime) / MOVE_DURATION))) ∧
      interp.getD (i*4+2) 0 = data.getD (i*4+2) 0 ∧
      interp.getD (i*4+3) 0 = data.getD (i*4+3) 0 ∧
      (mapGet (m.updateInterpolation now).interpolationStates i = none ↔
        max 0 (min 1 ((now - st.startTime) / MOVE_DURATION)) = 1) ∧
      (max 0 (min 1 ((now - st.startTime) / MOVE_DURATION)) ≠ 1 →
        mapGet (m.updateInterpolation now).interpolationStates i = some st) := by
  have hclamp : max 0 (min 1 ((now - st.startTime) / MOVE_DURATION))
      = interpProgress st now := by
    unfold interpProgress
    refine max_eq_right (le_min (by norm_num) ?_)
    apply div_nonneg (by linarith)
    norm_num [MOVE_DURATION]
  have hne : m.interpolationStates.isEmpty = false := by
    cases hml : m.interpolationStates with
    | nil => rw [hml] at hmem; simp at hmem
    | cons a t => rfl
  have hp_le : interpProgress st now ≤ 1 := min_le_left _ _
  have hiff : (1 ≤ interpProgress st now) ↔ interpProgress st now = 1 :=
    ⟨fun h => le_antisymm hp_le h, fun h => h.ge⟩
  rw [updateInterpolation_of_some m now data hdata hne]
  have hfst := interp_foldl_fst_mem data now m.interpolationStates i st
    (data, m.interpolationStates) hmem hnd hlen
  have hsnd := deleteFold_get_mem now m.interpolationStates
    m.interpolationStates i st hmem hnd
  have hgetst : mapGet m.interpolationStates i = some st :=
    mapGet_of_mem_nodup _ _ _ hmem hnd
  refine ⟨_, rfl, ?_, ?_, ?_, ?_, ?_, ?_⟩
  · rw [hclamp]; exact hfst.1
  · rw [hclamp]; exact hfst.2.1
  · exact hfst.2.2.1
  · exact hfst.2.2.2
  · dsimp only
    rw [interp_foldl_snd, hsnd, hclamp]
    constructor
    · intro h
      by_cases hone : 1 ≤ interpProgress st now
      · exact hiff.mp hone
      · rw [if_neg hone, hgetst] at h
        exact absurd h (by simp)
    · intro h
      rw [if_pos (hiff.mpr h)]
  · intro h
    dsimp only
    rw [interp_foldl_snd, hsnd, if_neg (fun hone => h (hclamp ▸ hiff.mp hone)),
      hgetst]

/-- Witness for C6 at `now = 3/20` (progress 1/2): the slot stays in the
active set with its state unchanged. -/
theorem updateInterpolation_lerp_witness :
    mapGet ((mC6.updateInterpolation (3/20)).interpolationStates) 0 =
      some ⟨0, 0, 2, 0, 0⟩ := by
  obtain ⟨interp, -, -, -, -, -, -, h7⟩ :=
    updateInterpolation_lerp mC6 (3/20) [0, 0, 5, 7] 0 ⟨0, 0, 2, 0, 0⟩
      rfl (by simp [mC6]) (by simp [mC6]) (by norm_num) (by norm_num)
  exact h7 (by norm_num [MOVE_DURATION])

/-- C4: shape-mismatched bulk updates are rejected without throwing and with
no partial application: the manager is returned entirely unchanged (stored
data, stored size/count, GPU resource and version counter included), both
for grids whose length differs from `mapSize*mapSize`, entity tables whose
length differs from `count*4`, and grid messages whose length is not a
perfect square. -/
theorem shape_mismatch_rejected :
    (∀ (m : MapManager) (tileData : List ℕ) (mapSize : ℕ),
      tileData.length ≠ mapSize * mapSize →
      m.updateMapData tileData mapSize = m) ∧
    (∀ (m : EntityManager) (unitData : List ℚ) (unitCount : ℕ) (now : ℚ),
      unitData.length ≠ unitCount * 4 →
      m.updateUnitData unitData unitCount now = m) ∧
    (∀ (m : MapManager) (data : List ℕ),
      data.length.sqrt * data.length.sqrt ≠ data.length →
      onUpdateMap m data = m) := by
  refine ⟨?_, ?_, ?_⟩
  · intro m tileData mapSize h
    simp only [MapManager.updateMapData]
    split
    · rfl
    · simp [h]
  · intro m unitData unitCount now h
    simp only [EntityManager.updateUnitData]
    split
    · rfl
    · simp [h]
  · intro m data h
    simp only [onUpdateMap]
    rw [if_pos h]

/-- Witness for C4: a 3-element buffer is rejected by a 2×2 grid update, by
a 1-unit entity update, and by the worker's perfect-square check, leaving
each manager exactly as it was. -/
theorem sq_ne_three (s : ℕ) : s * s ≠ 3 := by
  intro hcon
  rcases Nat.lt_or_ge s 2 with hs | hs
  · nlinarith
  · nlinarith

theorem shape_mismatch_rejected_witness :
    MapManager.empty.init.updateMapData [0, 0, 0] 2 = MapManager.empty.init ∧
    EntityManager.empty.init.updateUnitData [0, 0, 0] 1 0
      = EntityManager.empty.init ∧
    onUpdateMap MapManager.empty.init [0, 0, 0] = MapManager.empty.init := by
  refine ⟨shape_mismatch_rejected.1 _ _ _ (by norm_num),
    shape_mismatch_rejected.2.1 _ _ _ _ (by norm_num),
    shape_mismatch_rejected.2.2 _ _ (sq_ne_three _)⟩

/-- C7 counterexample: `ViewManager.add` invoked before `init` is not a
guarded no-op returning without effect — it throws
("ViewManager not initialized"), refuting the claim as stated. -/
theorem add_before_init_throws :
    ViewManager.empty.add ⟨0, true, none⟩ =
      Except.error "ViewManager not initialized. Call init() first." := rfl

/-- C7 amended: manager operations invoked before their required predecessor
are guarded no-ops that modify nothing and throw nothing
(`MapManager.updateMapData` and `EntityManager.updateUnitData` before `init`,
`EntityManager.update` before the first data arrival), with the exception of
`ViewManager.add`, which throws an error when called before `init`. -/
theorem uninitialized_access_guards :
    (∀ (m : MapManager) (d : List ℕ) (n : ℕ),
      m.device = false → m.updateMapData d n = m) ∧
    (∀ (m : EntityManager) (d : List ℚ) (c : ℕ) (now : ℚ),
      m.device = false → m.updateUnitData d c now = m) ∧
    (∀ (m : EntityManager) (now : ℚ),
      m.device = false ∨ m.unitStorageBuffer = none ∨
        m.currentUnitData = none →
      m.update now = m) ∧
    (∀ (vm : ViewManager) (layer : VictoriaeLayer),
      vm.gpuContext = false →
      vm.add layer =
        Except.error "ViewManager not initialized. Call init() first.") := by
  refine ⟨?_, ?_, ?_, ?_⟩
  · intro m d n h
    simp only [MapManager.updateMapData]
    rw [if_pos (by rw [h]; rfl)]
  · intro m d c now h
    simp only [EntityManager.updateUnitData]
    rw [if_pos (by rw [h]; rfl)]
  · intro m now h
    simp only [EntityManager.update]
    rw [if_pos h]
  · intro vm layer h
    simp only [ViewManager.add]
    rw [if_pos (by rw [h]; rfl)]

/-- Witness for C7 (amended): the guards at the freshly constructed managers,
and the thrown error on a fresh `ViewManager`. -/
theorem uninitialized_access_guards_witness :
    MapManager.empty.updateMapData [0] 1 = MapManager.empty ∧
    EntityManager.empty.updateUnitData [0, 0, 0, 0] 1 0
      = EntityManager.empty ∧
    EntityManager.empty.update 0 = EntityManager.empty ∧
    ViewManager.empty.add ⟨0, true, none⟩ =
      Except.error "ViewManager not initialized. Call init() first." :=
  ⟨uninitialized_access_guards.1 MapManager.empty [0] 1 rfl,
   uninitialized_access_guards.2.1 EntityManager.empty [0, 0, 0, 0] 1 0 rfl,
   uninitialized_access_guards.2.2.1 EntityManager.empty 0 (Or.inl rfl),
   uninitialized_access_guards.2.2.2 ViewManager.empty ⟨0, true, none⟩ rfl⟩

end Victoriae
